import Mathlib

/-!
Verification of the surgelimit / zenlimit GCRA rate limiter.

The decision engine exists in two forms in the repository: as Redis Lua
scripts (`allowN`, `allowAtMost`) run by the redis backends, and as plain Go
code in the echovault backend (`AllowN`, `AllowAtMost`, `getTat`).  Both are
transcribed here over exact rational arithmetic: the source computes with
64-bit machine reals, which we model by the real-number semantics of the same
expressions.  Durations are rationals measured in seconds; the stored TAT is
a rational timestamp; a missing key is `Option.none`.  The conversion of a
number to a machine integer (Go `int(x)`, Redis Lua table replies) truncates
toward zero, modelled by `qtrunc`.
-/

/-- Limit as in model_limit.go: Rate and Burst are integers, Period is a
duration, passed to the engine as Period.Seconds(). -/
structure Limit where
  rate : ℤ
  burst : ℤ
  period : ℚ
  deriving DecidableEq

/-- Result of a decision as in model_limit.go, with RetryAfter and ResetAfter
kept in seconds; RetryAfter uses the -1 sentinel for "not applicable". -/
structure RLResult where
  allowed : ℤ
  remaining : ℤ
  retryAfter : ℚ
  resetAfter : ℚ
  deriving DecidableEq

/-- A store write performed by a decision: SET key newTat EX ttlSec. -/
structure WriteEff where
  newTat : ℚ
  ttlSec : ℤ
  deriving DecidableEq

/-- Truncation toward zero, the conversion applied by Go `int(x)` and by the
Redis Lua-to-reply conversion of numbers. -/
def qtrunc (x : ℚ) : ℤ := if 0 ≤ x then ⌊x⌋ else ⌈x⌉

/-- The allowN Lua script (src/unnamed/part_004 lines 30-80, identical copy in
part_001).  The stored TAT is read with GET (`not tat` means missing, replaced
by now), then tat = max(tat, now), new_tat = tat + emission_interval*cost,
diff = now - (new_tat - burst_offset), remaining = diff / emission_interval.
Deny when remaining < 0, otherwise admit and SET new_tat with TTL
ceil(reset_after) when reset_after > 0.  The second component is the write the
script performs, if any. -/
def luaAllowN (stored : Option ℚ) (now : ℚ) (L : Limit) (cost : ℤ) :
    RLResult × Option WriteEff :=
  let emission_interval := L.period / (L.rate : ℚ)
  let increment := emission_interval * (cost : ℚ)
  let burst_offset := emission_interval * (L.burst : ℚ)
  let tat := max (stored.getD now) now
  let new_tat := tat + increment
  let allow_at := new_tat - burst_offset
  let diff := now - allow_at
  let remaining := diff / emission_interval
  if remaining < 0 then
    ({ allowed := 0, remaining := 0, retryAfter := diff * (-1),
       resetAfter := tat - now }, none)
  else
    let reset_after := new_tat - now
    let w : Option WriteEff :=
      if 0 < reset_after then some { newTat := new_tat, ttlSec := ⌈reset_after⌉ }
      else none
    ({ allowed := cost, remaining := qtrunc remaining, retryAfter := -1,
       resetAfter := reset_after }, w)

/-- The allowAtMost Lua script (src/unnamed/part_004 lines 104-165, identical
copy in part_001).  After the deny test `remaining < 1`, the clamp branch
`if remaining < cost then cost = remaining; remaining = 0` assigns the
UNFLOORED number remaining to cost; the reply conversion then truncates the
returned allowed count, but new_tat was computed from the fractional cost. -/
def luaAllowAtMost (stored : Option ℚ) (now : ℚ) (L : Limit) (n : ℤ) :
    RLResult × Option WriteEff :=
  let emission_interval := L.period / (L.rate : ℚ)
  let burst_offset := emission_interval * (L.burst : ℚ)
  let tat := max (stored.getD now) now
  let diff := now - (tat - burst_offset)
  let remaining := diff / emission_interval
  if remaining < 1 then
    ({ allowed := 0, remaining := 0, retryAfter := emission_interval - diff,
       resetAfter := tat - now }, none)
  else
    let cost : ℚ := if remaining < (n : ℚ) then remaining else (n : ℚ)
    let remOut : ℚ := if remaining < (n : ℚ) then 0 else remaining - (n : ℚ)
    let increment := emission_interval * cost
    let new_tat := tat + increment
    let reset_after := new_tat - now
    let w : Option WriteEff :=
      if 0 < reset_after then some { newTat := new_tat, ttlSec := ⌈reset_after⌉ }
      else none
    ({ allowed := qtrunc cost, remaining := qtrunc remOut, retryAfter := -1,
       resetAfter := reset_after }, w)

/-- The computation of the echovault AllowN (src/unnamed/part_003 lines
149-197) after getTat has produced a TAT value tat0. -/
def evAllowNFromTat (tat0 now : ℚ) (L : Limit) (n : ℤ) :
    RLResult × Option WriteEff :=
  let emissionInterval := L.period / (L.rate : ℚ)
  let burstOffset := emissionInterval * (L.burst : ℚ)
  let increment := emissionInterval * (n : ℚ)
  let tat := max tat0 now
  let newTat := tat + increment
  let allowAt := newTat - burstOffset
  let diff := now - allowAt
  let remaining := diff / emissionInterval
  if remaining < 0 then
    ({ allowed := 0, remaining := 0, retryAfter := -diff,
       resetAfter := tat - now }, none)
  else
    let resetAfter := newTat - now
    let w : Option WriteEff :=
      if 0 < resetAfter then some { newTat := newTat, ttlSec := ⌈resetAfter⌉ }
      else none
    ({ allowed := n, remaining := qtrunc remaining, retryAfter := -1,
       resetAfter := resetAfter }, w)

/-- The echovault AllowN on an error-free store: getTat returns the stored
value, or now when the key is absent. -/
def evAllowN (stored : Option ℚ) (now : ℚ) (L : Limit) (n : ℤ) :
    RLResult × Option WriteEff :=
  evAllowNFromTat (stored.getD now) now L n

/-- The computation of the echovault AllowAtMost (src/unnamed/part_003 lines
199-253) after getTat.  In the clamp branch the Go code floors the admitted
count with `n = int(remaining)` BEFORE computing the increment. -/
def evAllowAtMostFromTat (tat0 now : ℚ) (L : Limit) (n : ℤ) :
    RLResult × Option WriteEff :=
  let emissionInterval := L.period / (L.rate : ℚ)
  let burstOffset := emissionInterval * (L.burst : ℚ)
  let tat := max tat0 now
  let diff := now - (tat - burstOffset)
  let remaining := diff / emissionInterval
  if remaining < 1 then
    ({ allowed := 0, remaining := 0, retryAfter := emissionInterval - diff,
       resetAfter := tat - now }, none)
  else
    let nAdm : ℤ := if remaining < (n : ℚ) then qtrunc remaining else n
    let remOut : ℚ := if remaining < (n : ℚ) then 0 else remaining - (n : ℚ)
    let increment := emissionInterval * (nAdm : ℚ)
    let newTat := tat + increment
    let resetAfter := newTat - now
    let w : Option WriteEff :=
      if 0 < resetAfter then some { newTat := newTat, ttlSec := ⌈resetAfter⌉ }
      else none
    ({ allowed := nAdm, remaining := qtrunc remOut, retryAfter := -1,
       resetAfter := resetAfter }, w)

/-- The echovault AllowAtMost on an error-free store. -/
def evAllowAtMost (stored : Option ℚ) (now : ℚ) (L : Limit) (n : ℤ) :
    RLResult × Option WriteEff :=
  evAllowAtMostFromTat (stored.getD now) now L n

/-- Allow is AllowN with n = 1 (src/unnamed/part_003 lines 145-147 and the
same pattern in every backend). -/
def evAllow (stored : Option ℚ) (now : ℚ) (L : Limit) :
    RLResult × Option WriteEff :=
  evAllowN stored now L 1

/-- The GCRA reference decision, written from the specification text of claim
C1 and spec section 4.1: emissionInterval = period/rate, burstOffset =
emissionInterval*burst, increment = emissionInterval*n, tat =
max(storedTAT or now, now), newTat = tat + increment, diff =
now - (newTat - burstOffset), remaining = diff/emissionInterval; deny when
remaining < 0 with retryAfter = -diff and resetAfter = tat - now; otherwise
admit with remaining floored, and persist newTat with TTL ceil(resetAfter)
iff resetAfter > 0. -/
def gcraAllowN (stored : Option ℚ) (now : ℚ) (L : Limit) (n : ℤ) :
    RLResult × Option WriteEff :=
  let emissionInterval := L.period / (L.rate : ℚ)
  let burstOffset := emissionInterval * (L.burst : ℚ)
  let increment := emissionInterval * (n : ℚ)
  let tat := max (stored.getD now) now
  let newTat := tat + increment
  let diff := now - (newTat - burstOffset)
  let remaining := diff / emissionInterval
  if remaining < 0 then
    ({ allowed := 0, remaining := 0, retryAfter := -diff,
       resetAfter := tat - now }, none)
  else
    let resetAfter := newTat - now
    ({ allowed := n, remaining := ⌊remaining⌋, retryAfter := -1,
       resetAfter := resetAfter },
     if 0 < resetAfter then some { newTat := newTat, ttlSec := ⌈resetAfter⌉ }
     else none)

/-- The independently computed permit count of claim C5:
(now - (max(storedTAT or now, now) - burstOffset)) / emissionInterval. -/
def preRemaining (stored : Option ℚ) (now : ℚ) (L : Limit) : ℚ :=
  (now - (max (stored.getD now) now - L.period / (L.rate : ℚ) * (L.burst : ℚ)))
    / (L.period / (L.rate : ℚ))

/-- What the echovault Get call hands back, as seen by getTat: the empty
string (missing key), a numeric string, or a non-empty non-numeric string. -/
inductive GetReply where
  | missing
  | value (t : ℚ)
  | malformed
  deriving DecidableEq

/-- Outcome of getTat: a TAT value, a surfaced store error, or a surfaced
parse error. -/
inductive TatRead where
  | ok (t : ℚ)
  | storeFailure
  | parseFailure
  deriving DecidableEq

/-- getTat (src/unnamed/part_003 lines 264-272), transcribed with its exact
branch order: the empty-string test comes FIRST and returns (now, nil)
without consulting err; only a non-empty reply reaches the error test. -/
def getTat (reply : GetReply) (errFlag : Bool) (now : ℚ) : TatRead :=
  match reply with
  | .missing => .ok now
  | .value t => if errFlag then .storeFailure else .ok t
  | .malformed => if errFlag then .storeFailure else .parseFailure

/-- Errors a decision can surface to its caller. -/
inductive DecisionErr where
  | store
  | badValue
  deriving DecidableEq

/-- The echovault AllowN including its error channel: AllowN returns the
error of getTat when there is one, otherwise runs the decision. -/
def evAllowNChecked (reply : GetReply) (errFlag : Bool) (now : ℚ) (L : Limit)
    (n : ℤ) : Except DecisionErr (RLResult × Option WriteEff) :=
  match getTat reply errFlag now with
  | .storeFailure => .error .store
  | .parseFailure => .error .badValue
  | .ok t => .ok (evAllowNFromTat t now L n)

/-- Store operations a decision issues, for one fixed key. -/
inductive StoreOp where
  | get
  | set (value : ℚ) (exSec : ℤ)
  | scriptExec (burst rate : ℤ) (period : ℚ) (cost : ℤ)
  | del
  deriving DecidableEq

/-- Store operations issued by the echovault AllowN (src/unnamed/part_003
lines 149-197): the GET inside getTat happens unconditionally before any
branch, then the SET exactly when the decision writes. -/
def evAllowNOps (stored : Option ℚ) (now : ℚ) (L : Limit) (n : ℤ) :
    List StoreOp :=
  StoreOp.get ::
    (match (evAllowN stored now L n).2 with
     | some w => [StoreOp.set w.newTat w.ttlSec]
     | none => [])

/-- Store interaction of the surgelimit Limiter.AllowN (src/unnamed/part_000
lines 146-157): it builds values = [Burst, Rate, Period.Seconds(), n] and
unconditionally runs the allowN script against the store; no check of the
limit precedes the call. -/
def surgelimitAllowNCalls (L : Limit) (n : ℤ) : List StoreOp :=
  [StoreOp.scriptExec L.burst L.rate L.period n]

/-- Reset (src/unnamed/part_000 lines 276-278, part_003 lines 255-262):
an unconditional DEL of the key, leaving no stored TAT; DEL of an absent key
succeeds. -/
def resetState : Option ℚ → Option ℚ := fun _ => none

/-- Apply the write of a decision to the stored state. -/
def applyWrite (stored : Option ℚ) (w : Option WriteEff) : Option ℚ :=
  match w with
  | some we => some we.newTat
  | none => stored

/-- Two Allow(1) calls against the same key executed serially: the second
reads the state the first wrote.  Returns the two allowed counts. -/
def evAllowSerialPair (stored : Option ℚ) (now : ℚ) (L : Limit) : ℤ × ℤ :=
  let r1 := evAllowN stored now L 1
  let s1 := applyWrite stored r1.2
  let r2 := evAllowN s1 now L 1
  (r1.1.allowed, r2.1.allowed)

/-- Two concurrent Allow(1) calls against the same key on the echovault
backend, interleaved so that both getTat reads happen before either SET:
possible because the backend issues GET and SET as separate store calls.
Returns the two allowed counts. -/
def evAllowRacedPair (stored : Option ℚ) (now : ℚ) (L : Limit) : ℤ × ℤ :=
  let tatA := stored.getD now
  let tatB := stored.getD now
  let rA := evAllowNFromTat tatA now L 1
  let rB := evAllowNFromTat tatB now L 1
  (rA.1.allowed, rB.1.allowed)

/-! Helper lemmas shared by the claim theorems. -/

lemma qtrunc_of_nonneg {x : ℚ} (h : 0 ≤ x) : qtrunc x = ⌊x⌋ := if_pos h

lemma qtrunc_intCast (k : ℤ) : qtrunc (k : ℚ) = k := by
  unfold qtrunc
  split_ifs with h
  · exact Int.floor_intCast k
  · exact Int.ceil_intCast k

lemma emission_pos {L : Limit} (hr : 0 < L.rate) (hp : 0 < L.period) :
    0 < L.period / (L.rate : ℚ) :=
  div_pos hp (by exact_mod_cast hr)

/-- The pure-Go echovault AllowN computes exactly the same function as the
allowN Lua script, on every input. -/
lemma allowN_models_agree (s : Option ℚ) (now : ℚ) (L : Limit) (n : ℤ) :
    evAllowN s now L n = luaAllowN s now L n := by
  simp only [evAllowN, evAllowNFromTat, luaAllowN]
  split_ifs with h
  · simp [mul_neg_one]
  all_goals rfl

/-- Claim C1: for every limit with rate > 0 and period > 0, every stored TAT,
now and cost n, the AllowN decision (Lua script and echovault Go code alike)
equals the GCRA reference: deny with allowed 0, remaining 0,
retryAfter = -diff, resetAfter = tat - now when remaining < 0, otherwise
admit with allowed = n, remaining floored, retryAfter = -1,
resetAfter = newTat - now, persisting newTat with TTL ceil(resetAfter) iff
resetAfter > 0. -/
theorem allowN_matches_gcra_reference (s : Option ℚ) (now : ℚ) (L : Limit) (n : ℤ)
    (hr : 0 < L.rate) (hp : 0 < L.period) :
    luaAllowN s now L n = gcraAllowN s now L n ∧
    evAllowN s now L n = gcraAllowN s now L n := by
  constructor
  · simp only [luaAllowN, gcraAllowN]
    split_ifs with h
    · simp [mul_neg_one]
    all_goals rw [qtrunc_of_nonneg (not_lt.mp h)]
  · simp only [evAllowN, evAllowNFromTat, gcraAllowN]
    split_ifs with h
    · rfl
    all_goals rw [qtrunc_of_nonneg (not_lt.mp h)]

/-- Witness for C1: the equality evaluated at a concrete valid limit. -/
theorem allowN_matches_gcra_reference_witness :
    (0 : ℤ) < (⟨1, 1, 1⟩ : Limit).rate ∧ (0 : ℚ) < (⟨1, 1, 1⟩ : Limit).period ∧
    (luaAllowN none 0 ⟨1, 1, 1⟩ 1 = gcraAllowN none 0 ⟨1, 1, 1⟩ 1 ∧
      evAllowN none 0 ⟨1, 1, 1⟩ 1 = gcraAllowN none 0 ⟨1, 1, 1⟩ 1) :=
  ⟨by decide, by norm_num,
    allowN_matches_gcra_reference none 0 ⟨1, 1, 1⟩ 1 (by decide) (by norm_num)⟩

/-- Counterexample to claim C2: with the invalid limit rate = 0 (burst 10,
period 1s) a decision call is not rejected: the surgelimit AllowN still
executes the allowN script against the store, the echovault AllowN still
issues the GET first, and with an error-free store the echovault call
returns a Result rather than an error. -/
theorem invalid_limit_reaches_store_cx :
    surgelimitAllowNCalls ⟨0, 10, 1⟩ 1 ≠ [] ∧
    (evAllowNOps none 0 ⟨0, 10, 1⟩ 1).head? = some StoreOp.get ∧
    evAllowNChecked GetReply.missing false 0 ⟨0, 10, 1⟩ 1 =
      Except.ok (evAllowNFromTat 0 0 ⟨0, 10, 1⟩ 1) :=
  ⟨by simp [surgelimitAllowNCalls], rfl, rfl⟩

/-- Claim C2 amended: no validation of the limit exists; for every key and
every invalid limit (rate ≤ 0 or period ≤ 0) the decision call reaches the
store: the redis backends execute the script unconditionally and the
echovault backend issues the GET before any branch, and no invalid-limit
error is produced. -/
theorem invalid_limit_not_rejected (s : Option ℚ) (now : ℚ) (L : Limit) (n : ℤ)
    (hinv : L.rate ≤ 0 ∨ L.period ≤ 0) :
    surgelimitAllowNCalls L n = [StoreOp.scriptExec L.burst L.rate L.period n] ∧
    (evAllowNOps s now L n).head? = some StoreOp.get ∧
    evAllowNChecked GetReply.missing false now L n =
      Except.ok (evAllowNFromTat now now L n) :=
  ⟨rfl, rfl, rfl⟩

/-- Witness for the amended C2 at rate = 0. -/
theorem invalid_limit_not_rejected_witness :
    ((⟨0, 10, 1⟩ : Limit).rate ≤ 0 ∨ (⟨0, 10, 1⟩ : Limit).period ≤ 0) ∧
    (surgelimitAllowNCalls ⟨0, 10, 1⟩ 2 =
        [StoreOp.scriptExec 10 0 1 2] ∧
      (evAllowNOps (some 7) 0 ⟨0, 10, 1⟩ 2).head? = some StoreOp.get ∧
      evAllowNChecked GetReply.missing false 0 ⟨0, 10, 1⟩ 2 =
        Except.ok (evAllowNFromTat 0 0 ⟨0, 10, 1⟩ 2)) :=
  ⟨Or.inl (by decide),
    invalid_limit_not_rejected (some 7) 0 ⟨0, 10, 1⟩ 2 (Or.inl (by decide))⟩

/-- Claim C8 is right and the code is wrong (code bug): getTat tests the
empty reply before the error, so a GET that fails with an error while
returning the empty string (the Go convention for a failed call) is silently
treated as an empty bucket: getTat returns (now, nil), and the decision
proceeds and admits instead of surfacing the error.  Evaluated at now = 0,
limit rate 10 / burst 10 / period 1s, cost 1. -/
theorem failed_get_treated_as_empty_bucket :
    getTat GetReply.missing true 0 = TatRead.ok 0 ∧
    evAllowNChecked GetReply.missing true 0 ⟨10, 10, 1⟩ 1 =
      Except.ok ({ allowed := 1, remaining := 9, retryAfter := -1,
                   resetAfter := 1/10 }, some ⟨1/10, 1⟩) := by
  constructor
  · rfl
  · unfold evAllowNChecked getTat evAllowNFromTat qtrunc
    norm_num [Int.ceil_eq_iff]

/-- Counterexample to claim C3 as stated: with limit rate 1 / burst 1 /
period 1s, stored TAT 0.5 and now = 0, AllowN with cost 0 admits (allowed 0,
retryAfter -1) but the write step is NOT skipped: the script re-SETs the
stored TAT 0.5 with a fresh TTL of ceil(0.5) = 1 second. -/
theorem zero_cost_write_not_skipped_cx :
    luaAllowN (some (1/2)) 0 ⟨1, 1, 1⟩ 0 =
      ({ allowed := 0, remaining := 0, retryAfter := -1, resetAfter := 1/2 },
        some ⟨1/2, 1⟩) := by
  unfold luaAllowN qtrunc
  norm_num [Int.ceil_eq_iff]

/-- Claim C3 amended: for every valid limit, stored TAT and now, AllowN with
cost 0 returns allowed = 0 and never changes the stored TAT value, but the
write step is not skipped: when the stored TAT lies in the future the admit
path re-writes exactly the stored value with a refreshed TTL of
ceil(tat - now); otherwise no write happens.  The echovault Go backend
computes the same function. -/
theorem zero_cost_admits_value_preserved (s : Option ℚ) (now : ℚ) (L : Limit)
    (hr : 0 < L.rate) (hp : 0 < L.period) :
    (luaAllowN s now L 0).1.allowed = 0 ∧
    ((luaAllowN s now L 0).2 = none ∨
      ∃ t, s = some t ∧
        (luaAllowN s now L 0).2 = some { newTat := t, ttlSec := ⌈t - now⌉ }) ∧
    evAllowN s now L 0 = luaAllowN s now L 0 := by
  refine ⟨?_, ?_, allowN_models_agree s now L 0⟩
  · simp only [luaAllowN, Int.cast_zero, mul_zero, add_zero]
    split_ifs <;> rfl
  · simp only [luaAllowN, Int.cast_zero, mul_zero, add_zero]
    split_ifs with h1 h2
    · exact Or.inl rfl
    · refine Or.inr ?_
      rcases s with _ | t
      · exfalso
        simp only [Option.getD_none, max_self, sub_self] at h2
        exact lt_irrefl 0 h2
      · refine ⟨t, rfl, ?_⟩
        simp only [Option.getD_some] at h2 ⊢
        have hnt : now < max t now := by linarith
        have ht : now ≤ t := by
          rcases le_or_lt t now with h | h
          · rw [max_eq_right h] at hnt
            exact absurd hnt (lt_irrefl now)
          · exact h.le
        rw [max_eq_left ht]
    · exact Or.inl rfl

/-- Witness for the amended C3 at stored TAT 1, now 0, limit 1/1/1s. -/
theorem zero_cost_admits_value_preserved_witness :
    (0 : ℤ) < (⟨1, 1, 1⟩ : Limit).rate ∧ (0 : ℚ) < (⟨1, 1, 1⟩ : Limit).period ∧
    ((luaAllowN (some 1) 0 ⟨1, 1, 1⟩ 0).1.allowed = 0 ∧
      ((luaAllowN (some 1) 0 ⟨1, 1, 1⟩ 0).2 = none ∨
        ∃ t, (some (1:ℚ)) = some t ∧
          (luaAllowN (some 1) 0 ⟨1, 1, 1⟩ 0).2 =
            some { newTat := t, ttlSec := ⌈t - (0:ℚ)⌉ }) ∧
      evAllowN (some 1) 0 ⟨1, 1, 1⟩ 0 = luaAllowN (some 1) 0 ⟨1, 1, 1⟩ 0) :=
  ⟨by decide, by norm_num,
    zero_cost_admits_value_preserved (some 1) 0 ⟨1, 1, 1⟩ (by decide) (by norm_num)⟩

/-- Counterexample to claim C4 as stated: with a fresh key (no stored TAT),
now = 0, limit 1/1/1s and cost 0, the decision admits (retryAfter is the -1
sentinel, allowed = 0) yet writes no TAT at all, so an admitting decision
does not always write, and the EMPTY state persists. -/
theorem zero_cost_admit_without_write_cx :
    (evAllowN none 0 ⟨1, 1, 1⟩ 0).1.retryAfter = -1 ∧
    (evAllowN none 0 ⟨1, 1, 1⟩ 0).1.allowed = 0 ∧
    (evAllowN none 0 ⟨1, 1, 1⟩ 0).2 = none := by
  unfold evAllowN evAllowNFromTat qtrunc
  norm_num

/-- Claim C4 amended: for every valid limit and cost c ≥ 0, any TAT written
by AllowN or AllowAtMost — in the echovault Go embedding and in the Lua
script embedding alike — is ≥ the previous stored TAT and > now (so writes
move the state EMPTY to LOADED or LOADED to LOADED, monotonically); every
denying decision (retryAfter not the -1 sentinel) writes nothing; and every
admitting decision with c ≥ 1 does write.  Only a cost-0 admit may skip the
write. -/
theorem tat_monotonic_invariant (s : Option ℚ) (now : ℚ) (L : Limit) (c : ℤ)
    (hr : 0 < L.rate) (hp : 0 < L.period) (hc : 0 ≤ c) :
    (∀ w, (evAllowN s now L c).2 = some w →
        (∀ t, s = some t → t ≤ w.newTat) ∧ now < w.newTat) ∧
    (∀ w, (evAllowAtMost s now L c).2 = some w →
        (∀ t, s = some t → t ≤ w.newTat) ∧ now < w.newTat) ∧
    (∀ w, (luaAllowN s now L c).2 = some w →
        (∀ t, s = some t → t ≤ w.newTat) ∧ now < w.newTat) ∧
    (∀ w, (luaAllowAtMost s now L c).2 = some w →
        (∀ t, s = some t → t ≤ w.newTat) ∧ now < w.newTat) ∧
    ((evAllowN s now L c).1.retryAfter ≠ -1 → (evAllowN s now L c).2 = none) ∧
    ((evAllowAtMost s now L c).1.retryAfter ≠ -1 →
      (evAllowAtMost s now L c).2 = none) ∧
    ((luaAllowN s now L c).1.retryAfter ≠ -1 → (luaAllowN s now L c).2 = none) ∧
    ((luaAllowAtMost s now L c).1.retryAfter ≠ -1 →
      (luaAllowAtMost s now L c).2 = none) ∧
    (1 ≤ c → (evAllowN s now L c).1.retryAfter = -1 →
      (evAllowN s now L c).2 ≠ none) ∧
    (1 ≤ c → (evAllowAtMost s now L c).1.retryAfter = -1 →
      (evAllowAtMost s now L c).2 ≠ none) ∧
    (1 ≤ c → (luaAllowN s now L c).1.retryAfter = -1 →
      (luaAllowN s now L c).2 ≠ none) ∧
    (1 ≤ c → (luaAllowAtMost s now L c).1.retryAfter = -1 →
      (luaAllowAtMost s now L c).2 ≠ none) := by
  have hei : (0:ℚ) < L.period / (L.rate : ℚ) := emission_pos hr hp
  have hcq : (0:ℚ) ≤ (c : ℚ) := by exact_mod_cast hc
  have HN : (∀ w, (evAllowN s now L c).2 = some w →
        (∀ t, s = some t → t ≤ w.newTat) ∧ now < w.newTat) ∧
      ((evAllowN s now L c).1.retryAfter ≠ -1 → (evAllowN s now L c).2 = none) ∧
      (1 ≤ c → (evAllowN s now L c).1.retryAfter = -1 →
        (evAllowN s now L c).2 ≠ none) := by
    simp only [evAllowN, evAllowNFromTat]
    split_ifs with h1 h2
    · refine ⟨fun w hw => absurd hw (by simp), fun _ => rfl, fun hc1 habs => ?_⟩
      exfalso
      have hd : now - (max (s.getD now) now + L.period / (L.rate : ℚ) * (c : ℚ)
          - L.period / (L.rate : ℚ) * (L.burst : ℚ)) < 0 := by
        have := (div_lt_iff hei).mp h1
        simpa using this
      dsimp only at habs
      linarith
    · refine ⟨fun w hw => ?_, fun hne => absurd rfl hne, fun _ _ => by simp⟩
      simp only [Option.some.injEq] at hw
      subst hw
      constructor
      · intro t ht
        subst ht
        dsimp only
        simp only [Option.getD_some]
        have h0 : 0 ≤ L.period / (L.rate : ℚ) * (c : ℚ) := mul_nonneg hei.le hcq
        have := le_max_left t now
        linarith
      · dsimp only
        linarith
    · refine ⟨fun w hw => absurd hw (by simp), fun _ => rfl, fun hc1 _ => ?_⟩
      exfalso
      apply h2
      have hcq1 : (1:ℚ) ≤ (c : ℚ) := by exact_mod_cast hc1
      have hm : L.period / (L.rate : ℚ) * 1 ≤ L.period / (L.rate : ℚ) * (c : ℚ) :=
        mul_le_mul_of_nonneg_left hcq1 hei.le
      have := le_max_right (s.getD now) now
      linarith
  have HM : (∀ w, (evAllowAtMost s now L c).2 = some w →
        (∀ t, s = some t → t ≤ w.newTat) ∧ now < w.newTat) ∧
      ((evAllowAtMost s now L c).1.retryAfter ≠ -1 →
        (evAllowAtMost s now L c).2 = none) ∧
      (1 ≤ c → (evAllowAtMost s now L c).1.retryAfter = -1 →
        (evAllowAtMost s now L c).2 ≠ none) := by
    simp only [evAllowAtMost, evAllowAtMostFromTat]
    split_ifs with h1 h2 h3 h4
    · refine ⟨fun w hw => absurd hw (by simp), fun _ => rfl, fun hc1 habs => ?_⟩
      exfalso
      have hd : now - (max (s.getD now) now - L.period / (L.rate : ℚ) * (L.burst : ℚ))
          < L.period / (L.rate : ℚ) := by
        have := (div_lt_one hei).mp h1
        linarith
      dsimp only at habs
      linarith
    · have hrem1 : (1:ℚ) ≤ (now - (max (s.getD now) now
          - L.period / (L.rate : ℚ) * (L.burst : ℚ))) / (L.period / (L.rate : ℚ)) :=
        not_lt.mp h1
      have hfl0 : (0:ℚ) ≤ (qtrunc ((now - (max (s.getD now) now
          - L.period / (L.rate : ℚ) * (L.burst : ℚ))) / (L.period / (L.rate : ℚ))) : ℤ) := by
        rw [qtrunc_of_nonneg (le_trans zero_le_one hrem1)]
        exact_mod_cast Int.floor_nonneg.mpr (le_trans zero_le_one hrem1)
      set k : ℤ := qtrunc ((now - (max (s.getD now) now
          - L.period / (L.rate : ℚ) * (L.burst : ℚ))) / (L.period / (L.rate : ℚ))) with hk
      refine ⟨fun w hw => ?_, fun hne => absurd rfl hne, fun _ _ => by simp⟩
      simp only [Option.some.injEq] at hw
      subst hw
      constructor
      · intro t ht
        subst ht
        dsimp only
        simp only [Option.getD_some]
        have h0 : 0 ≤ L.period / (L.rate : ℚ) * (k : ℚ) :=
          mul_nonneg hei.le (by exact_mod_cast hfl0)
        have := le_max_left t now
        linarith
      · dsimp only
        linarith
    · refine ⟨fun w hw => absurd hw (by simp), fun _ => rfl, fun hc1 _ => ?_⟩
      exfalso
      apply h3
      have hrem1 : (1:ℚ) ≤ (now - (max (s.getD now) now
          - L.period / (L.rate : ℚ) * (L.burst : ℚ))) / (L.period / (L.rate : ℚ)) :=
        not_lt.mp h1
      have hfl1 : (1:ℚ) ≤ ((qtrunc ((now - (max (s.getD now) now
          - L.period / (L.rate : ℚ) * (L.burst : ℚ))) / (L.period / (L.rate : ℚ))) : ℤ) : ℚ) := by
        rw [qtrunc_of_nonneg (le_trans zero_le_one hrem1)]
        exact_mod_cast Int.le_floor.mpr (by exact_mod_cast hrem1)
      have hm : L.period / (L.rate : ℚ) * 1 ≤ L.period / (L.rate : ℚ) * _ :=
        mul_le_mul_of_nonneg_left hfl1 hei.le
      have := le_max_right (s.getD now) now
      linarith
    · refine ⟨fun w hw => ?_, fun hne => absurd rfl hne, fun _ _ => by simp⟩
      simp only [Option.some.injEq] at hw
      subst hw
      constructor
      · intro t ht
        subst ht
        dsimp only
        simp only [Option.getD_some]
        have h0 : 0 ≤ L.period / (L.rate : ℚ) * (c : ℚ) := mul_nonneg hei.le hcq
        have := le_max_left t now
        linarith
      · dsimp only
        linarith
    · refine ⟨fun w hw => absurd hw (by simp), fun _ => rfl, fun hc1 _ => ?_⟩
      exfalso
      apply h4
      have hcq1 : (1:ℚ) ≤ (c : ℚ) := by exact_mod_cast hc1
      have hm : L.period / (L.rate : ℚ) * 1 ≤ L.period / (L.rate : ℚ) * (c : ℚ) :=
        mul_le_mul_of_nonneg_left hcq1 hei.le
      have := le_max_right (s.getD now) now
      linarith
  have HLN : (∀ w, (luaAllowN s now L c).2 = some w →
        (∀ t, s = some t → t ≤ w.newTat) ∧ now < w.newTat) ∧
      ((luaAllowN s now L c).1.retryAfter ≠ -1 →
        (luaAllowN s now L c).2 = none) ∧
      (1 ≤ c → (luaAllowN s now L c).1.retryAfter = -1 →
        (luaAllowN s now L c).2 ≠ none) := by
    rw [← allowN_models_agree s now L c]
    exact HN
  have HL : (∀ w, (luaAllowAtMost s now L c).2 = some w →
        (∀ t, s = some t → t ≤ w.newTat) ∧ now < w.newTat) ∧
      ((luaAllowAtMost s now L c).1.retryAfter ≠ -1 →
        (luaAllowAtMost s now L c).2 = none) ∧
      (1 ≤ c → (luaAllowAtMost s now L c).1.retryAfter = -1 →
        (luaAllowAtMost s now L c).2 ≠ none) := by
    simp only [luaAllowAtMost]
    set R : ℚ := (now - (max (s.getD now) now
        - L.period / (L.rate : ℚ) * (L.burst : ℚ))) / (L.period / (L.rate : ℚ)) with hR
    split_ifs with h1 h2 h3 h4
    · refine ⟨fun w hw => absurd hw (by simp), fun _ => rfl, fun hc1 habs => ?_⟩
      exfalso
      rw [hR] at h1
      have hd : now - (max (s.getD now) now - L.period / (L.rate : ℚ) * (L.burst : ℚ))
          < L.period / (L.rate : ℚ) := by
        have := (div_lt_one hei).mp h1
        linarith
      dsimp only at habs
      linarith
    · have hrem1 : (1:ℚ) ≤ R := not_lt.mp h1
      have h0 : 0 ≤ L.period / (L.rate : ℚ) * R :=
        mul_nonneg hei.le (le_trans zero_le_one hrem1)
      refine ⟨fun w hw => ?_, fun hne => absurd rfl hne, fun _ _ => by simp⟩
      simp only [Option.some.injEq] at hw
      subst hw
      constructor
      · intro t ht
        subst ht
        dsimp only
        simp only [Option.getD_some]
        have := le_max_left t now
        linarith
      · dsimp only
        linarith
    · refine ⟨fun w hw => absurd hw (by simp), fun _ => rfl, fun hc1 _ => ?_⟩
      exfalso
      apply h3
      have hrem1 : (1:ℚ) ≤ R := not_lt.mp h1
      have hm : L.period / (L.rate : ℚ) * 1 ≤ L.period / (L.rate : ℚ) * R :=
        mul_le_mul_of_nonneg_left hrem1 hei.le
      have := le_max_right (s.getD now) now
      linarith
    · refine ⟨fun w hw => ?_, fun hne => absurd rfl hne, fun _ _ => by simp⟩
      simp only [Option.some.injEq] at hw
      subst hw
      constructor
      · intro t ht
        subst ht
        dsimp only
        simp only [Option.getD_some]
        have h0 : 0 ≤ L.period / (L.rate : ℚ) * (c : ℚ) := mul_nonneg hei.le hcq
        have := le_max_left t now
        linarith
      · dsimp only
        linarith
    · refine ⟨fun w hw => absurd hw (by simp), fun _ => rfl, fun hc1 _ => ?_⟩
      exfalso
      apply h4
      have hcq1 : (1:ℚ) ≤ (c : ℚ) := by exact_mod_cast hc1
      have hm : L.period / (L.rate : ℚ) * 1 ≤ L.period / (L.rate : ℚ) * (c : ℚ) :=
        mul_le_mul_of_nonneg_left hcq1 hei.le
      have := le_max_right (s.getD now) now
      linarith
  exact ⟨HN.1, HM.1, HLN.1, HL.1, HN.2.1, HM.2.1, HLN.2.1, HL.2.1,
    HN.2.2, HM.2.2, HLN.2.2, HL.2.2⟩

/-- Witness for the amended C4 at stored TAT 5, now 0, limit 1/1/1s, cost 1. -/
theorem tat_monotonic_invariant_witness :
    (0 : ℤ) < (⟨1, 1, 1⟩ : Limit).rate ∧ (0 : ℚ) < (⟨1, 1, 1⟩ : Limit).period ∧
    (0 : ℤ) ≤ 1 ∧
    ((∀ w, (evAllowN (some 5) 0 ⟨1, 1, 1⟩ 1).2 = some w →
        (∀ t, (some (5:ℚ)) = some t → t ≤ w.newTat) ∧ (0:ℚ) < w.newTat) ∧
      (∀ w, (evAllowAtMost (some 5) 0 ⟨1, 1, 1⟩ 1).2 = some w →
        (∀ t, (some (5:ℚ)) = some t → t ≤ w.newTat) ∧ (0:ℚ) < w.newTat) ∧
      (∀ w, (luaAllowN (some 5) 0 ⟨1, 1, 1⟩ 1).2 = some w →
        (∀ t, (some (5:ℚ)) = some t → t ≤ w.newTat) ∧ (0:ℚ) < w.newTat) ∧
      (∀ w, (luaAllowAtMost (some 5) 0 ⟨1, 1, 1⟩ 1).2 = some w →
        (∀ t, (some (5:ℚ)) = some t → t ≤ w.newTat) ∧ (0:ℚ) < w.newTat) ∧
      ((evAllowN (some 5) 0 ⟨1, 1, 1⟩ 1).1.retryAfter ≠ -1 →
        (evAllowN (some 5) 0 ⟨1, 1, 1⟩ 1).2 = none) ∧
      ((evAllowAtMost (some 5) 0 ⟨1, 1, 1⟩ 1).1.retryAfter ≠ -1 →
        (evAllowAtMost (some 5) 0 ⟨1, 1, 1⟩ 1).2 = none) ∧
      ((luaAllowN (some 5) 0 ⟨1, 1, 1⟩ 1).1.retryAfter ≠ -1 →
        (luaAllowN (some 5) 0 ⟨1, 1, 1⟩ 1).2 = none) ∧
      ((luaAllowAtMost (some 5) 0 ⟨1, 1, 1⟩ 1).1.retryAfter ≠ -1 →
        (luaAllowAtMost (some 5) 0 ⟨1, 1, 1⟩ 1).2 = none) ∧
      (1 ≤ (1:ℤ) → (evAllowN (some 5) 0 ⟨1, 1, 1⟩ 1).1.retryAfter = -1 →
        (evAllowN (some 5) 0 ⟨1, 1, 1⟩ 1).2 ≠ none) ∧
      (1 ≤ (1:ℤ) → (evAllowAtMost (some 5) 0 ⟨1, 1, 1⟩ 1).1.retryAfter = -1 →
        (evAllowAtMost (some 5) 0 ⟨1, 1, 1⟩ 1).2 ≠ none) ∧
      (1 ≤ (1:ℤ) → (luaAllowN (some 5) 0 ⟨1, 1, 1⟩ 1).1.retryAfter = -1 →
        (luaAllowN (some 5) 0 ⟨1, 1, 1⟩ 1).2 ≠ none) ∧
      (1 ≤ (1:ℤ) → (luaAllowAtMost (some 5) 0 ⟨1, 1, 1⟩ 1).1.retryAfter = -1 →
        (luaAllowAtMost (some 5) 0 ⟨1, 1, 1⟩ 1).2 ≠ none)) :=
  ⟨by decide, by norm_num, by decide,
    tat_monotonic_invariant (some 5) 0 ⟨1, 1, 1⟩ 1 (by decide) (by norm_num) (by decide)⟩

/-- Counterexample to claim C5 as stated: with limit rate 1 / burst 1 /
period 1s, stored TAT 3 and now 0, the independent permit count is
remaining = -2, whose floor is -2, while AllowAtMost(5) denies with
allowed = 0; so allowed is NOT bounded by floor(remaining). -/
theorem allowAtMost_exceeds_floor_remaining_cx :
    (evAllowAtMost (some 3) 0 ⟨1, 1, 1⟩ 5).1.allowed = 0 ∧
    ⌊preRemaining (some 3) 0 ⟨1, 1, 1⟩⌋ = -2 ∧
    ¬ ((evAllowAtMost (some 3) 0 ⟨1, 1, 1⟩ 5).1.allowed ≤
        ⌊preRemaining (some 3) 0 ⟨1, 1, 1⟩⌋) := by
  unfold evAllowAtMost evAllowAtMostFromTat preRemaining qtrunc
  norm_num [Int.floor_eq_iff]

/-- Claim C5 amended: for every valid limit, stored TAT, now and n ≥ 0,
AllowAtMost(n) admits at most n and at most max(0, floor(remaining)) where
remaining is the independently computed permit count; the bound by
floor(remaining) alone fails when remaining is negative (stored TAT beyond
now + burstOffset), where the decision denies with allowed = 0. -/
theorem allowAtMost_conservation (s : Option ℚ) (now : ℚ) (L : Limit) (n : ℤ)
    (hr : 0 < L.rate) (hp : 0 < L.period) (hn : 0 ≤ n) :
    (evAllowAtMost s now L n).1.allowed ≤ n ∧
    (evAllowAtMost s now L n).1.allowed ≤ max 0 ⌊preRemaining s now L⌋ := by
  have hpre : preRemaining s now L = (now - (max (s.getD now) now
      - L.period / (L.rate : ℚ) * (L.burst : ℚ))) / (L.period / (L.rate : ℚ)) := rfl
  rw [hpre]
  simp only [evAllowAtMost, evAllowAtMostFromTat, apply_ite Prod.fst,
    apply_ite RLResult.allowed]
  split_ifs with h1 h2
  · exact ⟨hn, le_max_left 0 _⟩
  · have hrem1 : (1:ℚ) ≤ (now - (max (s.getD now) now
        - L.period / (L.rate : ℚ) * (L.burst : ℚ))) / (L.period / (L.rate : ℚ)) :=
      not_lt.mp h1
    have hrem0 : (0:ℚ) ≤ (now - (max (s.getD now) now
        - L.period / (L.rate : ℚ) * (L.burst : ℚ))) / (L.period / (L.rate : ℚ)) :=
      le_trans zero_le_one hrem1
    rw [qtrunc_of_nonneg hrem0]
    constructor
    · have := Int.floor_le_floor (le_of_lt h2)
      rwa [Int.floor_intCast] at this
    · exact le_max_right 0 _
  · refine ⟨le_refl n, ?_⟩
    have hnf : n ≤ ⌊(now - (max (s.getD now) now
        - L.period / (L.rate : ℚ) * (L.burst : ℚ))) / (L.period / (L.rate : ℚ))⌋ :=
      Int.le_floor.mpr (not_lt.mp h2)
    exact le_trans hnf (le_max_right 0 _)

/-- Witness for the amended C5 at a fresh key, now 0, limit 1/1/1s, n = 1. -/
theorem allowAtMost_conservation_witness :
    (0 : ℤ) < (⟨1, 1, 1⟩ : Limit).rate ∧ (0 : ℚ) < (⟨1, 1, 1⟩ : Limit).period ∧
    (0 : ℤ) ≤ 1 ∧
    ((evAllowAtMost none 0 ⟨1, 1, 1⟩ 1).1.allowed ≤ 1 ∧
      (evAllowAtMost none 0 ⟨1, 1, 1⟩ 1).1.allowed ≤
        max 0 ⌊preRemaining none 0 ⟨1, 1, 1⟩⌋) :=
  ⟨by decide, by norm_num, by decide,
    allowAtMost_conservation none 0 ⟨1, 1, 1⟩ 1 (by decide) (by norm_num) (by decide)⟩

/-- Claim C6: monotonicity in cost.  For a fixed stored TAT, now and valid
limit, if AllowN with cost c1 denies (allowed = 0 with a real retryAfter,
i.e. the deny branch), then AllowN under the same state with any larger cost
c2 also denies; a denial writes nothing, so this covers an immediately
following call at the same instant. -/
theorem allowN_deny_monotone_in_cost (s : Option ℚ) (now : ℚ) (L : Limit)
    (c1 c2 : ℤ) (hr : 0 < L.rate) (hp : 0 < L.period) (h12 : c1 < c2)
    (hden : (evAllowN s now L c1).1.allowed = 0 ∧
      (evAllowN s now L c1).1.retryAfter ≠ -1) :
    (evAllowN s now L c2).1.allowed = 0 ∧
    (evAllowN s now L c2).1.retryAfter ≠ -1 := by
  have hei : (0:ℚ) < L.period / (L.rate : ℚ) := emission_pos hr hp
  by_cases h1 : (now - (max (s.getD now) now + L.period / (L.rate : ℚ) * (c1 : ℚ)
      - L.period / (L.rate : ℚ) * (L.burst : ℚ))) / (L.period / (L.rate : ℚ)) < 0
  · have hd1 : now - (max (s.getD now) now + L.period / (L.rate : ℚ) * (c1 : ℚ)
        - L.period / (L.rate : ℚ) * (L.burst : ℚ)) < 0 := by
      have := (div_lt_iff hei).mp h1
      simpa using this
    have hlt : L.period / (L.rate : ℚ) * (c1 : ℚ) < L.period / (L.rate : ℚ) * (c2 : ℚ) :=
      mul_lt_mul_of_pos_left (by exact_mod_cast h12) hei
    have hd2 : now - (max (s.getD now) now + L.period / (L.rate : ℚ) * (c2 : ℚ)
        - L.period / (L.rate : ℚ) * (L.burst : ℚ)) < 0 := by linarith
    have h2cond : (now - (max (s.getD now) now + L.period / (L.rate : ℚ) * (c2 : ℚ)
        - L.period / (L.rate : ℚ) * (L.burst : ℚ))) / (L.period / (L.rate : ℚ)) < 0 :=
      div_neg_of_neg_of_pos hd2 hei
    simp only [evAllowN, evAllowNFromTat, if_pos h2cond]
    refine ⟨trivial, ?_⟩
    dsimp only
    intro habs
    linarith
  · exfalso
    apply hden.2
    simp only [evAllowN, evAllowNFromTat, if_neg h1]

/-- Witness for C6 at stored TAT 5, now 0, limit 1/1/1s, costs 1 and 2. -/
theorem allowN_deny_monotone_in_cost_witness :
    (0 : ℤ) < (⟨1, 1, 1⟩ : Limit).rate ∧ (0 : ℚ) < (⟨1, 1, 1⟩ : Limit).period ∧
    (1 : ℤ) < 2 ∧
    ((evAllowN (some 5) 0 ⟨1, 1, 1⟩ 1).1.allowed = 0 ∧
      (evAllowN (some 5) 0 ⟨1, 1, 1⟩ 1).1.retryAfter ≠ -1) ∧
    ((evAllowN (some 5) 0 ⟨1, 1, 1⟩ 2).1.allowed = 0 ∧
      (evAllowN (some 5) 0 ⟨1, 1, 1⟩ 2).1.retryAfter ≠ -1) :=
  ⟨by decide, by norm_num, by decide,
    by unfold evAllowN evAllowNFromTat; norm_num,
    allowN_deny_monotone_in_cost (some 5) 0 ⟨1, 1, 1⟩ 1 2 (by decide) (by norm_num)
      (by decide) (by unfold evAllowN evAllowNFromTat; norm_num)⟩

/-- Claim C7: Reset deletes the stored TAT unconditionally (the model of the
DEL call clears the state and never fails), and an Allow() immediately after
it, with any valid limit (rate > 0, burst ≥ 1, period > 0), always admits. -/
theorem reset_then_allow_admits (s : Option ℚ) (now : ℚ) (L : Limit)
    (hr : 0 < L.rate) (hb : 1 ≤ L.burst) (hp : 0 < L.period) :
    resetState s = none ∧ (evAllow (resetState s) now L).1.allowed = 1 ∧
      (evAllow (resetState s) now L).1.retryAfter = -1 := by
  have hei : (0:ℚ) < L.period / (L.rate : ℚ) := emission_pos hr hp
  have hbq : (1:ℚ) ≤ (L.burst : ℚ) := by exact_mod_cast hb
  have hm : L.period / (L.rate : ℚ) * 1 ≤ L.period / (L.rate : ℚ) * (L.burst : ℚ) :=
    mul_le_mul_of_nonneg_left hbq hei.le
  have hcond : ¬ ((now - (now + L.period / (L.rate : ℚ)
      - L.period / (L.rate : ℚ) * (L.burst : ℚ))) / (L.period / (L.rate : ℚ)) < 0) := by
    apply not_lt.mpr
    apply div_nonneg ?_ hei.le
    linarith
  refine ⟨rfl, ?_⟩
  simp only [evAllow, evAllowN, resetState, evAllowNFromTat, Option.getD_none,
    max_self, Int.cast_one, mul_one, if_neg hcond]
  exact ⟨trivial, trivial⟩

/-- Witness for C7 at stored TAT 5, now 0, limit 1/1/1s. -/
theorem reset_then_allow_admits_witness :
    (0 : ℤ) < (⟨1, 1, 1⟩ : Limit).rate ∧ (1 : ℤ) ≤ (⟨1, 1, 1⟩ : Limit).burst ∧
    (0 : ℚ) < (⟨1, 1, 1⟩ : Limit).period ∧
    (resetState (some 5) = none ∧
      (evAllow (resetState (some 5)) 0 ⟨1, 1, 1⟩).1.allowed = 1 ∧
      (evAllow (resetState (some 5)) 0 ⟨1, 1, 1⟩).1.retryAfter = -1) :=
  ⟨by decide, by decide, by norm_num,
    reset_then_allow_admits (some 5) 0 ⟨1, 1, 1⟩ (by decide) (by decide) (by norm_num)⟩

/-- Counterexample to claim C9 as stated: on the echovault backend the GET
and SET of a decision are separate store calls, so two concurrent Allow(1)
callers on a fresh key with limit 1/1/1s can both read before either writes:
in that interleaving both admit (1, 1), while a serial execution of the same
two calls admits exactly one (1, 0) in either order (the calls are
identical); the raced outcome therefore equals no serial ordering. -/
theorem raced_pair_not_serializable_cx :
    evAllowRacedPair none 0 ⟨1, 1, 1⟩ = (1, 1) ∧
    evAllowSerialPair none 0 ⟨1, 1, 1⟩ = (1, 0) := by
  unfold evAllowRacedPair evAllowSerialPair evAllowN evAllowNFromTat applyWrite qtrunc
  norm_num

/-- Claim C9 amended: per-key atomicity does not hold for the echovault
backend, whose read-compute-write is not indivisible: for every valid limit
with burst 1 and any now, two concurrent Allow(1) callers on a fresh key that
both read before either writes each admit, while the serial execution admits
exactly one.  (For the Lua-script backends, each decision is one script
invocation, indivisible only by the external guarantee of the store, not by
anything in this code.) -/
theorem echovault_read_write_race (now : ℚ) (L : Limit)
    (hr : 0 < L.rate) (hp : 0 < L.period) (hb : L.burst = 1) :
    evAllowRacedPair none now L = (1, 1) ∧
    evAllowSerialPair none now L = (1, 0) := by
  have hei : (0:ℚ) < L.period / (L.rate : ℚ) := emission_pos hr hp
  have e0 : now - (now + L.period / (L.rate : ℚ) - L.period / (L.rate : ℚ)) = 0 := by
    ring
  constructor
  · simp only [evAllowRacedPair, evAllowNFromTat, Option.getD_none, max_self, hb,
      Int.cast_one, mul_one, e0, zero_div]
    rw [if_neg (lt_irrefl 0)]
  · simp only [evAllowSerialPair, evAllowN, evAllowNFromTat, Option.getD_none,
      max_self, hb, Int.cast_one, mul_one, e0, zero_div]
    rw [if_neg (lt_irrefl 0)]
    have hwr : 0 < now + L.period / (L.rate : ℚ) - now := by linarith
    rw [if_pos hwr]
    simp only [applyWrite, Option.getD_some]
    have hmax : max (now + L.period / (L.rate : ℚ)) now = now + L.period / (L.rate : ℚ) :=
      max_eq_left (by linarith)
    rw [hmax]
    have hc2 : (now - (now + L.period / (L.rate : ℚ) + L.period / (L.rate : ℚ)
        - L.period / (L.rate : ℚ))) / (L.period / (L.rate : ℚ)) < 0 := by
      apply div_neg_of_neg_of_pos ?_ hei
      have : now - (now + L.period / (L.rate : ℚ) + L.period / (L.rate : ℚ)
          - L.period / (L.rate : ℚ)) = -(L.period / (L.rate : ℚ)) := by ring
      rw [this]
      exact neg_lt_zero.mpr hei
    rw [if_pos hc2]

/-- Witness for the amended C9 at limit 1/1/1s and now 0. -/
theorem echovault_read_write_race_witness :
    (0 : ℤ) < (⟨1, 1, 1⟩ : Limit).rate ∧ (0 : ℚ) < (⟨1, 1, 1⟩ : Limit).period ∧
    (⟨1, 1, 1⟩ : Limit).burst = 1 ∧
    (evAllowRacedPair none 1 ⟨1, 1, 1⟩ = (1, 1) ∧
      evAllowSerialPair none 1 ⟨1, 1, 1⟩ = (1, 0)) :=
  ⟨by decide, by norm_num, by decide,
    echovault_read_write_race 1 ⟨1, 1, 1⟩ (by decide) (by norm_num) (by decide)⟩

/-- Counterexample to claim C10: at stored TAT 1/4, now 0, limit rate 2 /
burst 5 / period 1s and n = 10, remaining = 4.5 is fractional and below n, so
the clamp branch runs: the Go backend charges the floored cost 4 (newTat 9/4,
resetAfter 9/4) while the Lua script charges the fractional cost 4.5 (newTat
5/2, resetAfter 5/2); the two backends return different results and write
different TATs. -/
theorem backends_disagree_on_clamp_cx :
    (evAllowAtMost (some (1/4)) 0 ⟨2, 5, 1⟩ 10).1.resetAfter = 9/4 ∧
    (luaAllowAtMost (some (1/4)) 0 ⟨2, 5, 1⟩ 10).1.resetAfter = 5/2 ∧
    evAllowAtMost (some (1/4)) 0 ⟨2, 5, 1⟩ 10 ≠
      luaAllowAtMost (some (1/4)) 0 ⟨2, 5, 1⟩ 10 := by
  unfold evAllowAtMost evAllowAtMostFromTat luaAllowAtMost qtrunc
  norm_num [Int.floor_eq_iff, Int.ceil_eq_iff]

/-- Claim C10 amended: the Go echovault backend and the Lua scripts compute
the same AllowN function on every input, and the same AllowAtMost allowed,
remaining and retryAfter on every input; the full AllowAtMost results
(including resetAfter and the written TAT) coincide whenever n does not
exceed remaining or remaining is an integer, but differ in the fractional
clamp branch, where the Lua script charges the unfloored cost and the Go
backend the floored cost. -/
theorem backend_equivalence_partial (s : Option ℚ) (now : ℚ) (L : Limit) (n : ℤ)
    (hr : 0 < L.rate) (hp : 0 < L.period) :
    evAllowN s now L n = luaAllowN s now L n ∧
    (evAllowAtMost s now L n).1.allowed = (luaAllowAtMost s now L n).1.allowed ∧
    (evAllowAtMost s now L n).1.remaining = (luaAllowAtMost s now L n).1.remaining ∧
    (evAllowAtMost s now L n).1.retryAfter = (luaAllowAtMost s now L n).1.retryAfter ∧
    (((n : ℚ) ≤ preRemaining s now L ∨
        preRemaining s now L = (⌊preRemaining s now L⌋ : ℚ)) →
      evAllowAtMost s now L n = luaAllowAtMost s now L n) := by
  have hpre : preRemaining s now L = (now - (max (s.getD now) now
      - L.period / (L.rate : ℚ) * (L.burst : ℚ))) / (L.period / (L.rate : ℚ)) := rfl
  refine ⟨allowN_models_agree s now L n, ?_, ?_, ?_, ?_⟩
  · simp only [evAllowAtMost, evAllowAtMostFromTat, luaAllowAtMost,
      apply_ite Prod.fst, apply_ite RLResult.allowed]
    split_ifs with h1 h2
    · rfl
    · rfl
    · exact (qtrunc_intCast n).symm
  · simp only [evAllowAtMost, evAllowAtMostFromTat, luaAllowAtMost,
      apply_ite Prod.fst, apply_ite RLResult.remaining]
  · simp only [evAllowAtMost, evAllowAtMostFromTat, luaAllowAtMost,
      apply_ite Prod.fst, apply_ite RLResult.retryAfter]
  · intro hcond
    rw [hpre] at hcond
    by_cases hden : (now - (max (s.getD now) now
        - L.period / (L.rate : ℚ) * (L.burst : ℚ))) / (L.period / (L.rate : ℚ)) < 1
    · simp only [evAllowAtMost, evAllowAtMostFromTat, luaAllowAtMost]
      rw [if_pos hden, if_pos hden]
    · have hrem0 : (0:ℚ) ≤ (now - (max (s.getD now) now
          - L.period / (L.rate : ℚ) * (L.burst : ℚ))) / (L.period / (L.rate : ℚ)) :=
        le_trans zero_le_one (not_lt.mp hden)
      rcases hcond with hle | hInt
      · have h2f : ((now - (max (s.getD now) now
            - L.period / (L.rate : ℚ) * (L.burst : ℚ))) / (L.period / (L.rate : ℚ))
              < (n : ℚ)) = False := eq_false (not_lt.mpr hle)
        simp only [evAllowAtMost, evAllowAtMostFromTat, luaAllowAtMost, h2f,
          if_false, qtrunc_intCast]
      · have hq : ((qtrunc ((now - (max (s.getD now) now
            - L.period / (L.rate : ℚ) * (L.burst : ℚ))) / (L.period / (L.rate : ℚ))) : ℤ) : ℚ)
            = (now - (max (s.getD now) now
              - L.period / (L.rate : ℚ) * (L.burst : ℚ))) / (L.period / (L.rate : ℚ)) := by
          rw [qtrunc_of_nonneg hrem0]
          exact hInt.symm
        simp only [evAllowAtMost, evAllowAtMostFromTat, luaAllowAtMost,
          apply_ite qtrunc, apply_ite (fun z : ℤ => (z : ℚ)), qtrunc_intCast, hq]

/-- Witness for the amended C10 at a fresh key, now 0, limit 1/1/1s, n = 1. -/
theorem backend_equivalence_partial_witness :
    (0 : ℤ) < (⟨1, 1, 1⟩ : Limit).rate ∧ (0 : ℚ) < (⟨1, 1, 1⟩ : Limit).period ∧
    (evAllowN none 0 ⟨1, 1, 1⟩ 1 = luaAllowN none 0 ⟨1, 1, 1⟩ 1 ∧
      (evAllowAtMost none 0 ⟨1, 1, 1⟩ 1).1.allowed =
        (luaAllowAtMost none 0 ⟨1, 1, 1⟩ 1).1.allowed ∧
      (evAllowAtMost none 0 ⟨1, 1, 1⟩ 1).1.remaining =
        (luaAllowAtMost none 0 ⟨1, 1, 1⟩ 1).1.remaining ∧
      (evAllowAtMost none 0 ⟨1, 1, 1⟩ 1).1.retryAfter =
        (luaAllowAtMost none 0 ⟨1, 1, 1⟩ 1).1.retryAfter ∧
      (((1 : ℤ) : ℚ) ≤ preRemaining none 0 ⟨1, 1, 1⟩ ∨
          preRemaining none 0 ⟨1, 1, 1⟩ = (⌊preRemaining none 0 ⟨1, 1, 1⟩⌋ : ℚ) →
        evAllowAtMost none 0 ⟨1, 1, 1⟩ 1 = luaAllowAtMost none 0 ⟨1, 1, 1⟩ 1)) :=
  ⟨by decide, by norm_num,
    backend_equivalence_partial none 0 ⟨1, 1, 1⟩ 1 (by decide) (by norm_num)⟩
